import Mathlib

/-!
Shallow embedding of the `bilag` matching engine.

Sources: `src/newmatcher.py` (passes A/B/C and the `GrokMatcher.startup`
cascade; `src/newmatcher2.py` contains the very same pass functions plus the
candidate scorer `GrokMatcher.refresh_table`), and `src/grokmatcher2.py`
(an older variant of Pass A).

Modelling conventions:
* Calendar dates are integers (days since an arbitrary epoch).  Python's
  `datetime.fromisoformat` on `YYYY-MM-DD` strings yields midnight datetimes,
  and all date arithmetic in the engine is exact whole-day arithmetic, so
  `(d1 - d2).days` is the plain integer difference.
* A date field that may fail to parse is `Option Int` (`none` models a string
  `datetime.fromisoformat` rejects).
* Amounts are rationals.  Python's `round(x, 2)` produces a value determined
  by the integer `round(x * 100)`; every comparison of rounded amounts in the
  engine is therefore mirrored by comparing integer cent counts, computed by
  `round2c` below.  (`round2c` rounds half-cents up while Python rounds them
  to even; no claim or concrete input in this file exercises an exact
  half-cent tie.)
* Python dicts keyed by voucher number are association lists with
  Python's insertion/overwrite ordering (`dictInsert`).
* Python's `str.startswith` / `str.endswith` / `<` compare by code points;
  they are mirrored on `String.data` (lists of characters).
-/

namespace Bilag

/-- Integer cent count of an amount: `⌊q·100 + 1/2⌋`, computed directly from
the rational's numerator and denominator.  Two amounts get equal `round(·, 2)`
values in the Python source iff they have equal `round2c` here. -/
def round2c (q : ℚ) : ℤ :=
  (200 * q.num + (q.den : ℤ)).fdiv (2 * (q.den : ℤ))

/-- `src/newmatcher.py` creditor alias entry: `prefix`/`postfix` text patterns
(fields `pre`/`post` here) plus the optional subscription fields.
`frequency = none` models a missing or empty (falsy) `frequency` value;
`startDate = none` models a missing or empty `start_date`, and
`startDate = some none` a nonempty `start_date` string that
`datetime.fromisoformat` rejects. -/
structure Alias where
  pre : String
  post : String
  frequency : Option String
  startDate : Option (Option Int)
deriving DecidableEq

/-- Creditor catalog entry (only the fields the engine reads). -/
structure Creditor where
  id : Int
  aliases : List Alias
deriving DecidableEq

/-- A bank record (voucher): `VoucherNumber`, parsed `Date_iso` (`none` when
`datetime.fromisoformat` would raise), `Amount`, `CreditorID`. -/
structure Voucher where
  vn : String
  dateIso : Option Int
  amount : ℚ
  creditorId : Int
deriving DecidableEq

/-- A document record: filename, extracted dates (each `none` when the raw
string fails to parse), extracted amounts, extracted vendor lines. -/
structure Doc where
  file : String
  dates : List (Option Int)
  amounts : List ℚ
  vendors : List String
deriving DecidableEq

/-- The document's parsable dates, in listed order (the per-date
`try/except: pass` loops in the source keep exactly these). -/
def docDates (d : Doc) : List Int := d.dates.filterMap id

/-- Python `line.startswith(pre)`: code-point prefix test. -/
def strStarts (line pre : String) : Bool := pre.data.isPrefixOf line.data

/-- Python `line.endswith(post)`: code-point suffix test. -/
def strEnds (line post : String) : Bool := post.data.isSuffixOf line.data

/-- One vendor line matches one alias:
`line.startswith(pref) and (not post or line.endswith(post))`. -/
def aliasLineMatch (a : Alias) (line : String) : Bool :=
  strStarts line a.pre && (a.post == "" || strEnds line a.post)

/-- Pass B's alias test (vendor lines outer loop, aliases inner loop). -/
def docLineAliasMatch (aliases : List Alias) (d : Doc) : Bool :=
  d.vendors.any fun line => aliases.any fun a => aliasLineMatch a line

/-- Pass C's and the scorer's alias test (aliases outer, vendor lines inner). -/
def aliasDocMatch (aliases : List Alias) (d : Doc) : Bool :=
  aliases.any fun a => d.vendors.any fun line => aliasLineMatch a line

/-- Python's `min(dates, key=lambda dd: abs((dd - ref).days))` on a nonempty
list: the first element attaining the minimal absolute distance.  `none` on
the empty list (the source guards with `if doc_dates:`). -/
def closestTo (ref : Int) : List Int → Option Int
  | [] => none
  | d :: ds =>
      some (ds.foldl (fun best x =>
        if (x - ref).natAbs < (best - ref).natAbs then x else best) d)

/-- Python dict assignment `m[k] = v`: replace in place or append. -/
def dictInsert (m : List (String × List String)) (k : String) (v : List String) :
    List (String × List String) :=
  match m with
  | [] => [(k, v)]
  | (k', v') :: rest => if k' = k then (k, v) :: rest else (k', v') :: dictInsert rest k v

/-- Python dict lookup `m.get(k)` / `k in m`. -/
def dictLookup (m : List (String × List String)) (k : String) : Option (List String) :=
  (m.find? fun p => p.1 == k).map (·.2)

/-- One iteration of a pass's per-voucher loop: store `matches[vn] = entry`
when the body produces an entry, else leave the dict unchanged. -/
def passStep (f : Voucher → Option (List String))
    (m : List (String × List String)) (v : Voucher) : List (String × List String) :=
  match f v with
  | some e => dictInsert m v.vn e
  | none => m

/-- The per-voucher loop shared by the pass functions: each pass starts from
an empty `matches` dict and runs its per-voucher body over `bank_records` in
order. -/
def foldPass (f : Voucher → Option (List String)) (records : List Voucher) :
    List (String × List String) :=
  records.foldl (passStep f) []

/-- `doc_by_amount[key]` of `pass_a_exact_amount`: one entry `doc['file']` per
(document, amount) pair whose rounded amount equals the key, documents in
`doc_records` order (built over ALL documents; the source does not consult
`unmatched_docs`). -/
def amountCandidates (docs : List Doc) (key : ℤ) : List String :=
  docs.flatMap fun d => (d.amounts.filter fun a => round2c a == key).map fun _ => d.file

/-- Pass A's body for one voucher (`src/newmatcher.py`): skip vouchers not in
`unmatched_vouchers`; emit a match exactly when the amount index holds exactly
one entry for the voucher's rounded amount. -/
def passAVoucher (docs : List Doc) (uv : List String) (v : Voucher) :
    Option (List String) :=
  if v.vn ∈ uv then
    if (amountCandidates docs (round2c v.amount)).length = 1 then
      some (amountCandidates docs (round2c v.amount))
    else none
  else none

/-- `pass_a_exact_amount` of `src/newmatcher.py` (identical in
`src/newmatcher2.py`).  The `unmatched_docs` argument is accepted and
ignored, as in the source. -/
def pass_a_exact_amount (records : List Voucher) (docs : List Doc)
    (uv ud : List String) : List (String × List String) :=
  let _ := ud
  foldPass (passAVoucher docs uv) records

/-- Pass A's body for one voucher in `src/grokmatcher2.py`: emit the full
candidate list whenever it is nonempty
(`if candidates: matches[str(vn)] = candidates`). -/
def grok2PassAVoucher (docs : List Doc) (v : Voucher) : Option (List String) :=
  if amountCandidates docs (round2c v.amount) ≠ [] then
    some (amountCandidates docs (round2c v.amount))
  else none

/-- `pass_a_exact_amount` of `src/grokmatcher2.py`: ignores both unmatched
pools. -/
def grok2_pass_a_exact_amount (records : List Voucher) (docs : List Doc)
    (uv ud : List String) : List (String × List String) :=
  let _ := uv
  let _ := ud
  foldPass (grok2PassAVoucher docs) records

/-- `creditors[cred_id]` on the dict built by `load_creditors`
(`{int(c['id']): c for c in creditors_list}`: on duplicate ids the last
entry wins). -/
def lookupCreditor (creditors : List Creditor) (cid : Int) : Option Creditor :=
  (creditors.filter fun c => c.id == cid).getLast?

/-- Pass B's per-document candidate test: still unmatched, some vendor line
matches some alias, and (when the document has parsable dates) the closest
date is within 15 days of the voucher date; date-less documents pass. -/
def passBDocCand (ud : List String) (aliases : List Alias) (vd : Int) (d : Doc) : Bool :=
  decide (d.file ∈ ud) && docLineAliasMatch aliases d &&
    (match closestTo vd (docDates d) with
     | some c => decide ((c - vd).natAbs ≤ 15)
     | none => true)

/-- Pass B's body for one voucher of `src/newmatcher.py`: skip when not
unmatched, when the creditor id is unknown, or when the date fails to parse;
otherwise commit exactly when one candidate document remains. -/
def passBVoucher (docs : List Doc) (uv ud : List String) (creditors : List Creditor)
    (v : Voucher) : Option (List String) :=
  if v.vn ∈ uv then
    match lookupCreditor creditors v.creditorId with
    | none => none
    | some cred =>
      match v.dateIso with
      | none => none
      | some vd =>
        if ((docs.filter (passBDocCand ud cred.aliases vd)).map Doc.file).length = 1 then
          some ((docs.filter (passBDocCand ud cred.aliases vd)).map Doc.file)
        else none
  else none

/-- `pass_b_alias_date` of `src/newmatcher.py`. -/
def pass_b_alias_date (records : List Voucher) (docs : List Doc)
    (uv ud : List String) (creditors : List Creditor) : List (String × List String) :=
  foldPass (passBVoucher docs uv ud creditors) records

/-- `frequency_deltas.get(freq, timedelta(days=30))` of `pass_c_subscription`. -/
def freqDelta (freq : String) : Int :=
  if freq = "monthly" then 30
  else if freq = "quarterly" then 90
  else if freq = "semi-annual" then 180
  else if freq = "bimonthly" then 60
  else 30

/-- The schedule loop of `pass_c_subscription`:
`while current <= bound: (if start <= current: append current); current += delta`.
The `0 < delta` conjunct in the guard only secures termination in Lean; every
call site passes a `freqDelta` value, which is positive. -/
def scheduleFrom (start delta bound : Int) (current : Int) : List Int :=
  if _h : 0 < delta ∧ current ≤ bound then
    (if start ≤ current then [current] else []) ++ scheduleFrom start delta bound (current + delta)
  else []
termination_by (bound + 1 - current).toNat
decreasing_by omega

/-- The expected occurrence schedule for one subscription alias: from
`start_date` stepping by the frequency delta, up to `v_date + delta`. -/
def expectedDates (start vd : Int) (freq : String) : List Int :=
  scheduleFrom start (freqDelta freq) (vd + freqDelta freq) start

/-- Aliases having truthy `frequency` and `start_date` fields. -/
def subscriptionAliases (cred : Creditor) : List Alias :=
  cred.aliases.filter fun a => a.frequency.isSome && a.startDate.isSome

/-- One iteration of Pass C's inner per-alias loop, for a document that
already passed the amount and alias filters: skip an alias whose `frequency`
or `start_date` is missing or whose start date fails to parse; otherwise
contribute the file when the document's closest date is within 7 days of some
expected occurrence, or unconditionally when the document has no parsable
dates. -/
def passCAliasEntry (vd : Int) (d : Doc) (a : Alias) : List String :=
  match a.frequency, a.startDate with
  | some freq, some (some sd) =>
    (match closestTo vd (docDates d) with
     | some c =>
       if (expectedDates sd vd freq).any (fun e => (c - e).natAbs ≤ 7) then [d.file] else []
     | none => [d.file])
  | _, _ => []

/-- Pass C's inner per-alias loop over all subscription aliases. -/
def passCAliasCands (vd : Int) (d : Doc) (subs : List Alias) : List String :=
  subs.flatMap (passCAliasEntry vd d)

/-- Pass C's full candidate list for one voucher: documents still unmatched
whose amounts contain the voucher's rounded amount and whose vendor lines
match a subscription alias contribute their `passCAliasCands` entries. -/
def passCCands (docs : List Doc) (ud : List String) (subs : List Alias)
    (vd : Int) (amountKey : ℤ) : List String :=
  docs.flatMap fun d =>
    if decide (d.file ∈ ud) && decide (amountKey ∈ d.amounts.map round2c)
        && aliasDocMatch subs d
    then passCAliasCands vd d subs
    else []

/-- Sorted-ascending copy of a string list, by code points, mirroring
Python's `sorted` on strings (stable insertion sort). -/
def lexLeB : List Char → List Char → Bool
  | [], _ => true
  | _ :: _, [] => false
  | a :: as, b :: bs =>
    if a.toNat < b.toNat then true
    else if b.toNat < a.toNat then false
    else lexLeB as bs

/-- Python string `<=`: code-point lexicographic order. -/
def strLeB (s t : String) : Bool := lexLeB s.data t.data

/-- Python `sorted` on a list of strings. -/
def sortStrs (l : List String) : List String :=
  List.insertionSort (fun a b => strLeB a b = true) l

/-- Pass C's body for one voucher of `src/newmatcher.py`: skip when not
unmatched, the creditor id is unknown, no alias carries both `frequency` and
`start_date`, or the voucher date fails to parse; otherwise commit exactly
when `sorted(set(candidates))` has exactly one element. -/
def passCVoucher (docs : List Doc) (uv ud : List String) (creditors : List Creditor)
    (v : Voucher) : Option (List String) :=
  if v.vn ∈ uv then
    match lookupCreditor creditors v.creditorId with
    | none => none
    | some cred =>
      if (subscriptionAliases cred).isEmpty then none
      else
        match v.dateIso with
        | none => none
        | some vd =>
          if (sortStrs (passCCands docs ud (subscriptionAliases cred) vd
                (round2c v.amount)).eraseDups).length = 1 then
            some (sortStrs (passCCands docs ud (subscriptionAliases cred) vd
              (round2c v.amount)).eraseDups)
          else none
  else none

/-- `pass_c_subscription` of `src/newmatcher.py`. -/
def pass_c_subscription (records : List Voucher) (docs : List Doc)
    (uv ud : List String) (creditors : List Creditor) : List (String × List String) :=
  foldPass (passCVoucher docs uv ud creditors) records

/-- The in-memory reconciliation state of `GrokMatcher.startup`:
`matchinfo['matches']` plus the two unmatched pools. -/
structure MatchState where
  matchesMap : List (String × List String)
  unmatchedV : List String
  unmatchedD : List String
deriving DecidableEq

/-- The merge loop run after each pass in `GrokMatcher.startup`: for each new
entry in order, commit it only when the voucher is not already in `matches`,
and remove the voucher and its documents from the unmatched pools. -/
def mergeNew (st : MatchState) (newMatches : List (String × List String)) : MatchState :=
  newMatches.foldl (fun st p =>
    if dictLookup st.matchesMap p.1 = none then
      { matchesMap := dictInsert st.matchesMap p.1 p.2
        unmatchedV := st.unmatchedV.erase p.1
        unmatchedD := p.2.foldl (fun l d => l.erase d) st.unmatchedD }
    else st) st

/-- The three passes with their merge steps, in `GrokMatcher.startup` order:
each pass consumes the pools as narrowed by the previous merge. -/
def runCascade (records : List Voucher) (docs : List Doc) (creditors : List Creditor)
    (st : MatchState) : MatchState :=
  let st1 := mergeNew st (pass_a_exact_amount records docs st.unmatchedV st.unmatchedD)
  let st2 := mergeNew st1 (pass_b_alias_date records docs st1.unmatchedV st1.unmatchedD creditors)
  mergeNew st2 (pass_c_subscription records docs st2.unmatchedV st2.unmatchedD creditors)

/-- `GrokMatcher.startup` of `src/newmatcher.py` up to the save step: compute
the unmatched pools from the loaded `matchinfo`, then run the cascade.  (The
source sorts the pools; only membership and removal are ever used, so the
dedup order chosen here does not affect any output.) -/
def startup (records : List Voucher) (docs : List Doc) (creditors : List Creditor)
    (matchinfo : List (String × List String)) : MatchState :=
  let matchedDocs := matchinfo.flatMap (·.2)
  let uv := ((records.map Voucher.vn).eraseDups).filter fun vn => (dictLookup matchinfo vn).isNone
  let ud := ((docs.map Doc.file).eraseDups).filter fun f => decide (f ∉ matchedDocs)
  runCascade records docs creditors { matchesMap := matchinfo, unmatchedV := uv, unmatchedD := ud }

/-- One row of the scorer table (`GrokMatcher.refresh_table` of
`src/newmatcher2.py`); the purely presentational date/amount/vendor display
columns are omitted, the sort key reads only `score` and `file`. -/
structure Row where
  file : String
  score : Nat
deriving DecidableEq

/-- The score of one document for one voucher (`refresh_table`): +50 on a
rounded-amount hit, +30 on an alias hit (first match short-circuits), and a
closest-date bonus of +20/+10/+5 for ≤7/≤15/≤30 days (0 without dates). -/
def scoreDoc (creditors : List Creditor) (v : Voucher) (vd : Int) (d : Doc) : Nat :=
  (if round2c v.amount ∈ d.amounts.map round2c then 50 else 0)
  + (match lookupCreditor creditors v.creditorId with
     | some cred => if aliasDocMatch cred.aliases d then 30 else 0
     | none => 0)
  + (match closestTo vd (docDates d) with
     | some c =>
       if (c - vd).natAbs ≤ 7 then 20
       else if (c - vd).natAbs ≤ 15 then 10
       else if (c - vd).natAbs ≤ 30 then 5
       else 0
     | none => 0)

/-- The row comparison of `rows.sort(key=lambda r: (-int(r['score']), r['file']))`:
ascending in the pair (negated score, filename). -/
def rowLe (r1 r2 : Row) : Bool :=
  (r2.score < r1.score) || (r1.score == r2.score && strLeB r1.file r2.file)

/-- `GrokMatcher.refresh_table` of `src/newmatcher2.py` as a transformation on
its inputs: `none` models the caught exception path (unparsable voucher
date), otherwise the sorted table rows together with the `matchinfo`
mapping as the method leaves it (it is only read, never written). -/
def refresh_table (matchinfo : List (String × List String)) (creditors : List Creditor)
    (docs : List Doc) (v : Voucher) (showAllDocs hideMatched : Bool) :
    Option (List Row × List (String × List String)) :=
  match v.dateIso with
  | none => none
  | some vd =>
    let matchedDocs := matchinfo.flatMap (·.2)
    let rows := docs.filterMap fun d =>
      if hideMatched && decide (d.file ∈ matchedDocs) then none
      else
        let s := scoreDoc creditors v vd d
        if !showAllDocs && s == 0 then none
        else some { file := d.file, score := s }
    some (List.insertionSort (fun r1 r2 => rowLe r1 r2 = true) rows, matchinfo)

/-! ### Concrete inputs used by counterexamples and witnesses -/

/-- Voucher 1: amount 7, dated day 0, creditor 1. -/
def exV1 : Voucher := { vn := "1", dateIso := some 0, amount := 7, creditorId := 1 }

/-- Dateless document `a` carrying amount 7. -/
def exDocA : Doc := { file := "a", dates := [], amounts := [7], vendors := [] }

/-- Dateless document `b` carrying amount 7. -/
def exDocB : Doc := { file := "b", dates := [], amounts := [7], vendors := [] }

/-- Inputs for the idempotence counterexample (claim C3): voucher 2 is
ambiguous for Pass B in the first run (documents `a` and `b` both match its
creditor's alias `X`), while voucher 3 is committed to document `a` by Pass B
(only `a` matches alias `Y`); in the second run `a` is gone from the pool and
voucher 2 becomes unambiguous. -/
def c3V2 : Voucher := { vn := "2", dateIso := some 0, amount := 5, creditorId := 1 }

def c3V3 : Voucher := { vn := "3", dateIso := some 0, amount := 7, creditorId := 2 }

def c3D1 : Doc := { file := "a", dates := [some 0], amounts := [7, 7], vendors := ["X", "Y"] }

def c3D2 : Doc := { file := "b", dates := [], amounts := [], vendors := ["X"] }

def c3CredX : Creditor :=
  { id := 1, aliases := [{ pre := "X", post := "", frequency := none, startDate := none }] }

def c3CredY : Creditor :=
  { id := 2, aliases := [{ pre := "Y", post := "", frequency := none, startDate := none }] }

/-- Inputs for the Pass C counterexample (claim C5): a monthly (not
bimonthly) subscription alias and a document with no dates. -/
def c5Alias : Alias :=
  { pre := "X", post := "", frequency := some "monthly", startDate := some (some 0) }

def c5Cred : Creditor := { id := 1, aliases := [c5Alias] }

def c5V : Voucher := { vn := "1", dateIso := some 0, amount := 9, creditorId := 1 }

def c5D : Doc := { file := "a", dates := [], amounts := [9], vendors := ["X"] }

/-- Inputs for claim C10: a document whose amount list is empty but whose
vendor line matches the creditor's alias. -/
def c10Cred : Creditor :=
  { id := 1, aliases := [{ pre := "X", post := "", frequency := none, startDate := none }] }

def c10V : Voucher := { vn := "1", dateIso := some 0, amount := 5, creditorId := 1 }

def c10D : Doc := { file := "a", dates := [], amounts := [], vendors := ["X"] }

/-- A voucher whose date string fails to parse (claim C8). -/
def exVbad : Voucher := { vn := "9", dateIso := none, amount := 7, creditorId := 1 }

/-! ### Dictionary and pass-loop lemmas -/

theorem dictLookup_cons (k' : String) (v' : List String) (rest : List (String × List String))
    (k : String) :
    dictLookup ((k', v') :: rest) k = if k' == k then some v' else dictLookup rest k := by
  cases h : (k' == k) <;> simp [dictLookup, List.find?_cons, h]

theorem dictLookup_dictInsert_self (m : List (String × List String)) (k : String)
    (v : List String) : dictLookup (dictInsert m k v) k = some v := by
  induction m with
  | nil => simp [dictInsert, dictLookup_cons]
  | cons p rest ih =>
    obtain ⟨k', v'⟩ := p
    by_cases h : k' = k
    · subst h; simp [dictInsert, dictLookup_cons]
    · simp [dictInsert, h, dictLookup_cons, ih]

theorem dictLookup_dictInsert_ne (m : List (String × List String)) (k : String)
    (v : List String) (k' : String) (hne : k' ≠ k) :
    dictLookup (dictInsert m k v) k' = dictLookup m k' := by
  induction m with
  | nil =>
    rw [dictInsert, dictLookup_cons, if_neg (fun h => hne (eq_of_beq h).symm)]
  | cons p rest ih =>
    obtain ⟨k0, v0⟩ := p
    by_cases h : k0 = k
    · subst h
      rw [dictInsert, if_pos rfl, dictLookup_cons, dictLookup_cons,
        if_neg (fun h => hne (eq_of_beq h).symm), if_neg (fun h => hne (eq_of_beq h).symm)]
    · rw [dictInsert, if_neg h, dictLookup_cons, dictLookup_cons, ih]

theorem dictLookup_dictInsert_cases (m : List (String × List String)) (k : String)
    (v : List String) (k' : String) (ds : List String)
    (h : dictLookup (dictInsert m k v) k' = some ds) :
    ds = v ∨ dictLookup m k' = some ds := by
  induction m with
  | nil =>
    rw [dictInsert] at h
    rw [dictLookup_cons] at h
    by_cases hk : k == k'
    · simp [hk] at h; exact Or.inl h.symm
    · simp [hk, dictLookup] at h
  | cons p rest ih =>
    obtain ⟨k0, v0⟩ := p
    by_cases h0 : k0 = k
    · subst h0
      rw [dictInsert, if_pos rfl, dictLookup_cons] at h
      by_cases hk : k0 == k'
      · simp [hk] at h
        exact Or.inl h.symm
      · simp [hk] at h
        right
        rw [dictLookup_cons, if_neg (by simpa using hk)]
        exact h
    · rw [dictInsert, if_neg h0, dictLookup_cons] at h
      by_cases hk : k0 == k'
      · simp [hk] at h
        right
        rw [dictLookup_cons, if_pos hk]
        simp [h]
      · simp [hk] at h
        rcases ih h with h' | h'
        · exact Or.inl h'
        · right
          rw [dictLookup_cons, if_neg (by simpa using hk)]
          exact h'

theorem lookup_foldl_passStep_of_ne (f : Voucher → Option (List String)) (k : String) :
    ∀ (records : List Voucher) (m0 : List (String × List String)),
      (∀ r ∈ records, r.vn ≠ k) →
      dictLookup (records.foldl (passStep f) m0) k = dictLookup m0 k := by
  intro records
  induction records with
  | nil => intro m0 _; rfl
  | cons r rest ih =>
    intro m0 h
    rw [List.foldl_cons, ih _ (fun x hx => h x (List.mem_cons_of_mem _ hx))]
    cases hf : f r with
    | none => simp only [passStep, hf]
    | some e =>
      simp only [passStep, hf]
      exact dictLookup_dictInsert_ne _ _ _ _ (Ne.symm (h r (List.mem_cons_self _ _)))

theorem lookup_foldPass_eq (f : Voucher → Option (List String)) (records : List Voucher)
    (hnd : (records.map Voucher.vn).Nodup) (v : Voucher) (hv : v ∈ records) :
    dictLookup (foldPass f records) v.vn = f v := by
  obtain ⟨s, t, rfl⟩ := List.append_of_mem hv
  rw [List.map_append, List.map_cons, List.nodup_append] at hnd
  obtain ⟨h1, h2, hdisj⟩ := hnd
  have hvt : v.vn ∉ t.map Voucher.vn := (List.nodup_cons.mp h2).1
  have hvs : v.vn ∉ s.map Voucher.vn := fun hmem => hdisj hmem (List.mem_cons_self _ _)
  have hs : ∀ r ∈ s, r.vn ≠ v.vn := fun r hr heq => hvs (heq ▸ List.mem_map_of_mem _ hr)
  have ht : ∀ r ∈ t, r.vn ≠ v.vn := fun r hr heq => hvt (heq ▸ List.mem_map_of_mem _ hr)
  unfold foldPass
  rw [List.foldl_append, List.foldl_cons, lookup_foldl_passStep_of_ne f v.vn t _ ht]
  have hsl : dictLookup (List.foldl (passStep f) [] s) v.vn = none := by
    rw [lookup_foldl_passStep_of_ne f v.vn s [] hs]; rfl
  cases hf : f v with
  | none => simp only [passStep, hf]; exact hsl
  | some e => simp only [passStep, hf]; exact dictLookup_dictInsert_self _ _ _

theorem lookup_foldl_passStep_values (f : Voucher → Option (List String))
    (P : List String → Prop) (hf : ∀ v e, f v = some e → P e) :
    ∀ (records : List Voucher) (m0 : List (String × List String)),
      (∀ k ds, dictLookup m0 k = some ds → P ds) →
      ∀ k ds, dictLookup (records.foldl (passStep f) m0) k = some ds → P ds := by
  intro records
  induction records with
  | nil => intro m0 h0; exact h0
  | cons r rest ih =>
    intro m0 h0 k ds h
    rw [List.foldl_cons] at h
    refine ih _ ?_ k ds h
    intro k' ds' h'
    cases hfr : f r with
    | none =>
      simp only [passStep, hfr] at h'
      exact h0 _ _ h'
    | some e =>
      simp only [passStep, hfr] at h'
      rcases dictLookup_dictInsert_cases _ _ _ _ _ h' with rfl | hm
      · exact hf r _ hfr
      · exact h0 _ _ hm

theorem lookup_foldPass_values (f : Voucher → Option (List String))
    (P : List String → Prop) (hf : ∀ v e, f v = some e → P e)
    (records : List Voucher) (k : String) (ds : List String)
    (h : dictLookup (foldPass f records) k = some ds) : P ds := by
  refine lookup_foldl_passStep_values f P hf records [] ?_ k ds h
  intro k' ds' h'
  simp [dictLookup] at h'

/-! ### The closest-date selection (Python `min` with a key function) -/

theorem closest_fold_spec (ref : ℤ) :
    ∀ (ds : List ℤ) (b : ℤ),
      (ds.foldl (fun best x => if (x - ref).natAbs < (best - ref).natAbs then x else best) b = b ∧
        ∀ x ∈ ds,
          (ds.foldl (fun best x => if (x - ref).natAbs < (best - ref).natAbs then x else best) b - ref).natAbs
            ≤ (x - ref).natAbs) ∨
      (∃ l1 l2,
        ds = l1 ++ (ds.foldl (fun best x => if (x - ref).natAbs < (best - ref).natAbs then x else best) b) :: l2 ∧
        ((ds.foldl (fun best x => if (x - ref).natAbs < (best - ref).natAbs then x else best) b - ref).natAbs
           < (b - ref).natAbs) ∧
        (∀ x ∈ l1,
          (ds.foldl (fun best x => if (x - ref).natAbs < (best - ref).natAbs then x else best) b - ref).natAbs
            < (x - ref).natAbs) ∧
        (∀ x ∈ ds,
          (ds.foldl (fun best x => if (x - ref).natAbs < (best - ref).natAbs then x else best) b - ref).natAbs
            ≤ (x - ref).natAbs)) := by
  intro ds
  induction ds with
  | nil => intro b; left; exact ⟨rfl, by simp⟩
  | cons x rest ih =>
    intro b
    rw [List.foldl_cons]
    by_cases hx : (x - ref).natAbs < (b - ref).natAbs
    · rw [if_pos hx]
      rcases ih x with ⟨heq, hmin⟩ | ⟨l1, l2, hsplit, hlt, hl1, hall⟩
      · right
        refine ⟨[], rest, by simp [heq], by rwa [heq], by simp, ?_⟩
        intro y hy
        rcases List.mem_cons.mp hy with rfl | hy'
        · rw [heq]
        · exact hmin y hy'
      · right
        refine ⟨x :: l1, l2, by simpa using hsplit, lt_trans hlt hx, ?_, ?_⟩
        · intro y hy
          rcases List.mem_cons.mp hy with rfl | hy'
          · exact hlt
          · exact hl1 y hy'
        · intro y hy
          rcases List.mem_cons.mp hy with rfl | hy'
          · exact le_of_lt hlt
          · exact hall y hy'
    · rw [if_neg hx]
      rcases ih b with ⟨heq, hmin⟩ | ⟨l1, l2, hsplit, hlt, hl1, hall⟩
      · left
        refine ⟨heq, ?_⟩
        intro y hy
        rcases List.mem_cons.mp hy with rfl | hy'
        · rw [heq]; omega
        · exact hmin y hy'
      · right
        refine ⟨x :: l1, l2, by simpa using hsplit, hlt, ?_, ?_⟩
        · intro y hy
          rcases List.mem_cons.mp hy with rfl | hy'
          · omega
          · exact hl1 y hy'
        · intro y hy
          rcases List.mem_cons.mp hy with rfl | hy'
          · omega
          · exact hall y hy'

/-- Claim C7 (amended): for a nonempty date list, the selected closest date
minimizes the absolute day-distance to the reference, and among the dates
attaining the minimum the one listed FIRST is selected (the selection depends
on list order, not on calendar order): the result splits the list as
`l1 ++ d :: l2` with every date in `l1` at strictly greater distance. -/
theorem C7_closest_minimizer_first_in_list_order (ref : ℤ) (l : List ℤ) (d : ℤ)
    (h : closestTo ref l = some d) :
    d ∈ l ∧ (∀ x ∈ l, (d - ref).natAbs ≤ (x - ref).natAbs) ∧
    ∃ l1 l2, l = l1 ++ d :: l2 ∧ ∀ x ∈ l1, (d - ref).natAbs < (x - ref).natAbs := by
  match l with
  | [] => simp [closestTo] at h
  | b :: ds =>
    rw [closestTo] at h
    have hd : ds.foldl (fun best x => if (x - ref).natAbs < (best - ref).natAbs then x else best) b = d :=
      Option.some_injective _ h
    rcases closest_fold_spec ref ds b with ⟨heq, hmin⟩ | ⟨l1, l2, hsplit, hlt, hl1, hall⟩
    · have hbd : b = d := by rw [← hd, heq]
      subst hbd
      rw [hd] at hmin
      refine ⟨List.mem_cons_self _ _, ?_, [], ds, rfl, by simp⟩
      intro x hx
      rcases List.mem_cons.mp hx with rfl | hx'
      · omega
      · exact hmin x hx'
    · rw [hd] at hsplit hlt hl1 hall
      refine ⟨List.mem_cons_of_mem _ (hsplit ▸ List.mem_append_right _ (List.mem_cons_self _ _)), ?_,
        b :: l1, l2, by simpa using hsplit, ?_⟩
      · intro x hx
        rcases List.mem_cons.mp hx with rfl | hx'
        · omega
        · exact hall x hx'
      · intro x hx
        rcases List.mem_cons.mp hx with rfl | hx'
        · exact hlt
        · exact hl1 x hx'

/-- Claim C7, counterexample to the claim as stated: with dates listed as
`[20, 10]` and reference `15`, both dates are at distance 5, the earliest
calendar date among the ties is `10`, yet the code selects `20` (the first
in list order). -/
theorem C7_counterexample_earliest_tie_not_selected :
    closestTo 15 [20, 10] = some 20 ∧
    ((10 : ℤ) - 15).natAbs = ((20 : ℤ) - 15).natAbs ∧ (10 : ℤ) < 20 := by
  decide

theorem C7_witness :
    (20 : ℤ) ∈ [(20 : ℤ), 10] ∧
    (∀ x ∈ [(20 : ℤ), 10], ((20 : ℤ) - 15).natAbs ≤ (x - 15).natAbs) ∧
    ∃ l1 l2, [(20 : ℤ), 10] = l1 ++ (20 : ℤ) :: l2 ∧
      ∀ x ∈ l1, ((20 : ℤ) - 15).natAbs < (x - 15).natAbs :=
  C7_closest_minimizer_first_in_list_order 15 [20, 10] 20 (by decide)

/-! ### The Pass C schedule generator -/

theorem freqDelta_pos (freq : String) : 0 < freqDelta freq := by
  unfold freqDelta
  split_ifs <;> omega

theorem scheduleFrom_unfold (start delta bound current : ℤ) :
    scheduleFrom start delta bound current =
      if 0 < delta ∧ current ≤ bound then
        (if start ≤ current then [current] else [])
          ++ scheduleFrom start delta bound (current + delta)
      else [] := by
  rw [scheduleFrom]
  simp

theorem mem_scheduleFrom (start delta bound : ℤ) (hδ : 0 < delta) (d : ℤ) :
    ∀ current, d ∈ scheduleFrom start delta bound current ↔
      ∃ k : ℕ, d = current + (k : ℤ) * delta ∧ start ≤ d ∧ d ≤ bound := by
  have main : ∀ (n : ℕ) (current : ℤ), (bound + 1 - current).toNat = n →
      (d ∈ scheduleFrom start delta bound current ↔
        ∃ k : ℕ, d = current + (k : ℤ) * delta ∧ start ≤ d ∧ d ≤ bound) := by
    intro n
    induction n using Nat.strong_induction_on with
    | _ n ih =>
      intro current hn
      rw [scheduleFrom_unfold]
      by_cases hc : current ≤ bound
      · rw [if_pos ⟨hδ, hc⟩]
        have hmeas : (bound + 1 - (current + delta)).toNat < n := by omega
        have htail := ih _ hmeas (current + delta) rfl
        constructor
        · intro hmem
          rcases List.mem_append.mp hmem with hhead | htl
          · have : start ≤ current ∧ d = current := by
              by_cases hs : start ≤ current
              · rw [if_pos hs] at hhead
                exact ⟨hs, List.mem_singleton.mp hhead⟩
              · rw [if_neg hs] at hhead
                exact absurd hhead (List.not_mem_nil d)
            refine ⟨0, by omega, by omega, by omega⟩
          · obtain ⟨k, hk, hsd, hdb⟩ := htail.mp htl
            refine ⟨k + 1, ?_, hsd, hdb⟩
            push_cast
            linarith [hk]
        · rintro ⟨k, hk, hsd, hdb⟩
          cases k with
          | zero =>
            apply List.mem_append_left
            have hdc : d = current := by
              push_cast at hk
              linarith [hk]
            rw [if_pos (by omega), hdc]
            exact List.mem_singleton.mpr rfl
          | succ k' =>
            apply List.mem_append_right
            refine htail.mpr ⟨k', ?_, hsd, hdb⟩
            push_cast at hk ⊢
            linarith [hk]
      · rw [if_neg (by tauto)]
        simp only [List.not_mem_nil, false_iff, not_exists]
        intro k ⟨hk, _, hdb⟩
        have : (k : ℤ) * delta ≥ 0 := mul_nonneg (Int.ofNat_nonneg k) (le_of_lt hδ)
        omega
  intro current
  exact main ((bound + 1 - current).toNat) current rfl

/-- Claim C9: the Pass C schedule generation terminates with a fixed positive
period per frequency (monthly 30, quarterly 90, semi-annual 180, bimonthly 60,
default 30), and the generated occurrence list is exactly the set of dates
`startDate + k·period` (k = 0, 1, 2, …) that are ≤ `voucherDate + period`;
it is empty exactly when `voucherDate + period` precedes `startDate`. -/
theorem C9_schedule_terminates_and_exact (start vd : ℤ) (freq : String) :
    0 < freqDelta freq ∧
    (∀ d : ℤ, d ∈ expectedDates start vd freq ↔
      ∃ k : ℕ, d = start + (k : ℤ) * freqDelta freq ∧ d ≤ vd + freqDelta freq) ∧
    (expectedDates start vd freq = [] ↔ vd + freqDelta freq < start) := by
  have hδ := freqDelta_pos freq
  have hmem : ∀ d : ℤ, d ∈ expectedDates start vd freq ↔
      ∃ k : ℕ, d = start + (k : ℤ) * freqDelta freq ∧ d ≤ vd + freqDelta freq := by
    intro d
    rw [expectedDates, mem_scheduleFrom start (freqDelta freq) (vd + freqDelta freq) hδ d start]
    constructor
    · rintro ⟨k, hk, _, hdb⟩
      exact ⟨k, hk, hdb⟩
    · rintro ⟨k, hk, hdb⟩
      have : (k : ℤ) * freqDelta freq ≥ 0 := mul_nonneg (Int.ofNat_nonneg k) (le_of_lt hδ)
      exact ⟨k, hk, by omega, hdb⟩
  refine ⟨hδ, hmem, ?_, ?_⟩
  · intro hnil
    by_contra hcon
    have hstart : start ∈ expectedDates start vd freq :=
      (hmem start).mpr ⟨0, by push_cast; ring, by omega⟩
    rw [hnil] at hstart
    exact List.not_mem_nil start hstart
  · intro hlt
    rw [List.eq_nil_iff_forall_not_mem]
    intro d hd
    obtain ⟨k, hk, hdb⟩ := (hmem d).mp hd
    have : (k : ℤ) * freqDelta freq ≥ 0 := mul_nonneg (Int.ofNat_nonneg k) (le_of_lt hδ)
    omega

/-! ### Pass bodies: inversion lemmas -/

theorem passBVoucher_some (docs : List Doc) (uv ud : List String)
    (creditors : List Creditor) (v : Voucher) (e : List String)
    (h : passBVoucher docs uv ud creditors v = some e) :
    ∃ cred vd, v.vn ∈ uv ∧ lookupCreditor creditors v.creditorId = some cred ∧
      v.dateIso = some vd ∧
      e = (docs.filter (passBDocCand ud cred.aliases vd)).map Doc.file ∧
      e.length = 1 := by
  unfold passBVoucher at h
  split at h
  · rename_i huv
    split at h
    · cases h
    · rename_i cred heq
      split at h
      · cases h
      · rename_i vd hd
        split at h
        · rename_i hlen
          have he := Option.some_inj.mp h
          subst he
          exact ⟨cred, vd, huv, heq, hd, rfl, hlen⟩
        · cases h
  · cases h

theorem passCVoucher_some (docs : List Doc) (uv ud : List String)
    (creditors : List Creditor) (v : Voucher) (e : List String)
    (h : passCVoucher docs uv ud creditors v = some e) :
    ∃ cred vd, v.vn ∈ uv ∧ lookupCreditor creditors v.creditorId = some cred ∧
      (subscriptionAliases cred).isEmpty = false ∧ v.dateIso = some vd ∧
      e = sortStrs (passCCands docs ud (subscriptionAliases cred) vd
            (round2c v.amount)).eraseDups ∧
      e.length = 1 := by
  unfold passCVoucher at h
  split at h
  · rename_i huv
    split at h
    · cases h
    · rename_i cred heq
      split at h
      · cases h
      · rename_i hsub
        split at h
        · cases h
        · rename_i vd hd
          split at h
          · rename_i hlen
            have he := Option.some_inj.mp h
            subst he
            have hsub' : (subscriptionAliases cred).isEmpty = false := by
              simpa using hsub
            exact ⟨cred, vd, huv, heq, hsub', hd, rfl, hlen⟩
          · cases h
  · cases h

theorem mem_eraseDups_loop (as : List String) :
    ∀ (bs : List String) (x : String),
      x ∈ List.eraseDups.loop as bs ↔ x ∈ as ∨ x ∈ bs := by
  induction as with
  | nil =>
    intro bs x
    simp [List.eraseDups.loop]
  | cons a rest ih =>
    intro bs x
    rw [List.eraseDups.loop]
    cases hel : bs.elem a with
    | true =>
      rw [ih bs x]
      have ha : a ∈ bs := List.elem_iff.mp hel
      constructor
      · rintro (h | h)
        · exact Or.inl (List.mem_cons_of_mem _ h)
        · exact Or.inr h
      · rintro (h | h)
        · rcases List.mem_cons.mp h with rfl | h'
          · exact Or.inr ha
          · exact Or.inl h'
        · exact Or.inr h
    | false =>
      rw [ih (a :: bs) x]
      constructor
      · rintro (h | h)
        · exact Or.inl (List.mem_cons_of_mem _ h)
        · rcases List.mem_cons.mp h with rfl | h'
          · exact Or.inl (List.mem_cons_self _ _)
          · exact Or.inr h'
      · rintro (h | h)
        · rcases List.mem_cons.mp h with rfl | h'
          · exact Or.inr (List.mem_cons_self _ _)
          · exact Or.inl h'
        · exact Or.inr (List.mem_cons_of_mem _ h)

theorem mem_eraseDups (l : List String) (x : String) : x ∈ l.eraseDups ↔ x ∈ l := by
  rw [List.eraseDups, mem_eraseDups_loop]
  simp

theorem mem_sortStrs (l : List String) (x : String) : x ∈ sortStrs l ↔ x ∈ l := by
  rw [sortStrs]
  exact (List.perm_insertionSort _ l).mem_iff

/-- Every file produced by Pass C's per-alias loop is the document's file. -/
theorem passCAliasCands_subset (vd : Int) (d : Doc) (subs : List Alias) :
    ∀ f ∈ passCAliasCands vd d subs, f = d.file := by
  intro f hf
  obtain ⟨a, _, hfa⟩ := List.mem_flatMap.mp hf
  unfold passCAliasEntry at hfa
  split at hfa
  · split at hfa
    · split at hfa
      · exact List.mem_singleton.mp hfa
      · simp at hfa
    · exact List.mem_singleton.mp hfa
  all_goals simp at hfa

/-- Claim C2 (amended): Pass B's and Pass C's candidate structures are built
only from documents still in the unmatched pool, so every document either
pass emits is in `unmatched_docs`.  Pass A's amount index, by contrast, is
built over ALL documents, so Pass A can emit a document outside the pool
(see the counterexample); within a run, documents claimed by an earlier pass
are removed from the pool by the merge step before the next pass runs. -/
theorem C2_later_passes_draw_from_unmatched_pool (records : List Voucher)
    (docs : List Doc) (uv ud : List String) (creditors : List Creditor) :
    (∀ k ds, dictLookup (pass_b_alias_date records docs uv ud creditors) k = some ds →
      ∀ f ∈ ds, f ∈ ud) ∧
    (∀ k ds, dictLookup (pass_c_subscription records docs uv ud creditors) k = some ds →
      ∀ f ∈ ds, f ∈ ud) := by
  constructor
  · intro k ds h
    refine lookup_foldPass_values _ (fun e => ∀ f ∈ e, f ∈ ud) ?_ records k ds h
    intro v e he f hf
    obtain ⟨cred, vd, _, _, _, rfl, _⟩ := passBVoucher_some docs uv ud creditors v e he
    obtain ⟨d, hd, rfl⟩ := List.mem_map.mp hf
    have hcand := (List.mem_filter.mp hd).2
    rw [passBDocCand, Bool.and_assoc, Bool.and_eq_true] at hcand
    exact of_decide_eq_true hcand.1
  · intro k ds h
    refine lookup_foldPass_values _ (fun e => ∀ f ∈ e, f ∈ ud) ?_ records k ds h
    intro v e he f hf
    obtain ⟨cred, vd, _, _, _, _, rfl, _⟩ := passCVoucher_some docs uv ud creditors v e he
    rw [mem_sortStrs, mem_eraseDups] at hf
    obtain ⟨d, _, hfd⟩ := List.mem_flatMap.mp hf
    by_cases hguard : (decide (d.file ∈ ud) &&
        decide (round2c v.amount ∈ d.amounts.map round2c) &&
        aliasDocMatch (subscriptionAliases cred) d) = true
    · rw [if_pos hguard] at hfd
      have hfile := passCAliasCands_subset vd d (subscriptionAliases cred) f hfd
      subst hfile
      rw [Bool.and_assoc, Bool.and_eq_true] at hguard
      exact of_decide_eq_true hguard.1
    · rw [if_neg hguard] at hfd
      simp at hfd

/-- Claim C2, counterexample to the claim as stated: document `a` is NOT in
the unmatched pool (the pool is empty), yet Pass A of `src/newmatcher.py`
emits the match `voucher 1 → [a]`, because its amount index is built over all
documents rather than the unmatched pool. -/
theorem C2_counterexample_pass_a_emits_matched_doc :
    dictLookup (pass_a_exact_amount [exV1] [exDocA] ["1"] []) "1" = some ["a"] ∧
    "a" ∉ ([] : List String) := by
  decide

/-- Claim C1 (amended): `src/newmatcher.py`'s Pass A emits a match for a
voucher in the unmatched list iff the amount index holds exactly one ENTRY
for the voucher's rounded amount, counting one entry per (document, amount)
pair — so e.g. one document listing two amounts that both round to the
voucher's amount yields two entries and blocks the match.
`src/grokmatcher2.py`'s Pass A instead emits the entire candidate list
whenever it is nonempty, for every voucher, ignoring the unmatched pools. -/
theorem C1_pass_a_singleton_amended (records : List Voucher) (docs : List Doc)
    (uv ud : List String) (hnd : (records.map Voucher.vn).Nodup)
    (v : Voucher) (hv : v ∈ records) :
    (∀ (k : ℤ) (f : String), f ∈ amountCandidates docs k ↔
      ∃ d ∈ docs, d.file = f ∧ ∃ a ∈ d.amounts, round2c a = k) ∧
    (∀ c, dictLookup (pass_a_exact_amount records docs uv ud) v.vn = some c ↔
      v.vn ∈ uv ∧ c = amountCandidates docs (round2c v.amount) ∧ c.length = 1) ∧
    (∀ c, dictLookup (grok2_pass_a_exact_amount records docs uv ud) v.vn = some c ↔
      c = amountCandidates docs (round2c v.amount) ∧ c ≠ []) := by
  refine ⟨?_, ?_, ?_⟩
  · intro k f
    simp only [amountCandidates, List.mem_flatMap, List.mem_map, List.mem_filter, beq_iff_eq]
    constructor
    · rintro ⟨d, hd, a, ⟨ha, hak⟩, hfile⟩
      exact ⟨d, hd, hfile, a, ha, hak⟩
    · rintro ⟨d, hd, hfile, a, ha, hak⟩
      exact ⟨d, hd, a, ⟨ha, hak⟩, hfile⟩
  · intro c
    show dictLookup (foldPass (passAVoucher docs uv) records) v.vn = some c ↔ _
    rw [lookup_foldPass_eq _ records hnd v hv]
    by_cases huv : v.vn ∈ uv
    · rw [passAVoucher, if_pos huv]
      by_cases hlen : (amountCandidates docs (round2c v.amount)).length = 1
      · rw [if_pos hlen]
        constructor
        · intro h
          have h' := Option.some_inj.mp h
          exact ⟨huv, h'.symm, h' ▸ hlen⟩
        · rintro ⟨_, rfl, _⟩; rfl
      · rw [if_neg hlen]
        constructor
        · intro h; cases h
        · rintro ⟨_, rfl, hl⟩; exact absurd hl hlen
    · rw [passAVoucher, if_neg huv]
      constructor
      · intro h; cases h
      · rintro ⟨h, _, _⟩; exact absurd h huv
  · intro c
    show dictLookup (foldPass (grok2PassAVoucher docs) records) v.vn = some c ↔ _
    rw [lookup_foldPass_eq _ records hnd v hv]
    by_cases hne : amountCandidates docs (round2c v.amount) ≠ []
    · rw [grok2PassAVoucher, if_pos hne]
      constructor
      · intro h
        have h' := Option.some_inj.mp h
        exact ⟨h'.symm, h' ▸ hne⟩
      · rintro ⟨rfl, _⟩; rfl
    · rw [grok2PassAVoucher, if_neg hne]
      constructor
      · intro h; cases h
      · rintro ⟨rfl, hc⟩; exact absurd hc hne

/-- Claim C1, counterexample to the claim as stated: documents `a` and `b`
both carry the voucher's amount 7, so the voucher has two candidates and the
claim says Pass A leaves it unmatched, yet `src/grokmatcher2.py`'s
`pass_a_exact_amount` maps it to both documents. -/
theorem C1_counterexample_two_candidates_still_matched :
    dictLookup (grok2_pass_a_exact_amount [exV1] [exDocA, exDocB] ["1"] []) "1" =
      some ["a", "b"] ∧
    (amountCandidates [exDocA, exDocB] (round2c exV1.amount)).length = 2 := by
  decide

theorem C1_witness :
    dictLookup (pass_a_exact_amount [exV1] [exDocA] ["1"] []) "1" = some ["a"] ↔
      "1" ∈ ["1"] ∧ ["a"] = amountCandidates [exDocA] (round2c exV1.amount) ∧
        (["a"] : List String).length = 1 :=
  (C1_pass_a_singleton_amended [exV1] [exDocA] ["1"] [] (by decide) exV1
    (List.mem_singleton.mpr rfl)).2.1 ["a"]

/-! ### The startup cascade and its merge step -/

theorem mergeNew_preserves (newMatches : List (String × List String)) :
    ∀ (st : MatchState) (k : String) (ds : List String),
      dictLookup st.matchesMap k = some ds →
      dictLookup (mergeNew st newMatches).matchesMap k = some ds := by
  induction newMatches with
  | nil => intro st k ds h; exact h
  | cons p rest ih =>
    intro st k ds h
    simp only [mergeNew, List.foldl_cons] at *
    by_cases hp : dictLookup st.matchesMap p.1 = none
    · rw [if_pos hp]
      refine ih _ k ds ?_
      have hk : k ≠ p.1 := fun heq => by rw [heq, hp] at h; cases h
      show dictLookup (dictInsert st.matchesMap p.1 p.2) k = some ds
      rw [dictLookup_dictInsert_ne _ _ _ _ hk]
      exact h
    · rw [if_neg hp]
      exact ih _ k ds h

/-- Claim C3 (amended): the cascade is not idempotent (see the
counterexample: a second run can add matches when a document claimed by a
later commit of the first run disambiguates a previously ambiguous Pass B
candidate set).  What does hold is that a run never removes or rewrites an
existing entry: the merged MatchSet extends its input monotonically, so every
entry of the loaded MatchSet — in particular every entry produced by the
first run — survives every later run unchanged. -/
theorem C3_cascade_extends_matchset (records : List Voucher) (docs : List Doc)
    (creditors : List Creditor) (matchinfo : List (String × List String)) :
    ∀ k ds, dictLookup matchinfo k = some ds →
      dictLookup (startup records docs creditors matchinfo).matchesMap k = some ds := by
  intro k ds h
  unfold startup runCascade
  apply mergeNew_preserves
  apply mergeNew_preserves
  apply mergeNew_preserves
  exact h

theorem C3_witness :
    dictLookup (startup [c3V2, c3V3] [c3D1, c3D2] [c3CredX, c3CredY]
      [("3", ["a"])]).matchesMap "3" = some ["a"] :=
  C3_cascade_extends_matchset [c3V2, c3V3] [c3D1, c3D2] [c3CredX, c3CredY]
    [("3", ["a"])] "3" ["a"] (by decide)

/-- Claim C3, counterexample to the claim as stated: running the full cascade
a second time against the first run's updated MatchSet produces an additional
match.  First run: Pass A matches nothing (voucher 2's amount is absent,
voucher 3's amount appears twice in document `a`), Pass B commits voucher 3 →
`a` and leaves voucher 2 ambiguous between `a` and `b`.  Second run: `a` is
out of the pool, so Pass B now commits voucher 2 → `b`. -/
theorem C3_counterexample_second_run_adds_match :
    (startup [c3V2, c3V3] [c3D1, c3D2] [c3CredX, c3CredY]
        (startup [c3V2, c3V3] [c3D1, c3D2] [c3CredX, c3CredY] []).matchesMap).matchesMap ≠
      (startup [c3V2, c3V3] [c3D1, c3D2] [c3CredX, c3CredY] []).matchesMap ∧
    (startup [c3V2, c3V3] [c3D1, c3D2] [c3CredX, c3CredY] []).matchesMap = [("3", ["a"])] ∧
    (startup [c3V2, c3V3] [c3D1, c3D2] [c3CredX, c3CredY]
        [("3", ["a"])]).matchesMap = [("3", ["a"]), ("2", ["b"])] := by
  decide

/-! ### Skip-and-continue (claim C8) -/

theorem passBVoucher_bad_none (docs : List Doc) (uv ud : List String)
    (creditors : List Creditor) (v : Voucher)
    (hbad : v.dateIso = none ∨ lookupCreditor creditors v.creditorId = none) :
    passBVoucher docs uv ud creditors v = none := by
  unfold passBVoucher
  by_cases huv : v.vn ∈ uv
  · rw [if_pos huv]
    rcases hbad with hd | hc
    · cases hcred : lookupCreditor creditors v.creditorId with
      | none => rfl
      | some cred => simp [hd]
    · simp [hc]
  · rw [if_neg huv]

theorem passCVoucher_bad_none (docs : List Doc) (uv ud : List String)
    (creditors : List Creditor) (v : Voucher)
    (hbad : v.dateIso = none ∨ lookupCreditor creditors v.creditorId = none) :
    passCVoucher docs uv ud creditors v = none := by
  unfold passCVoucher
  by_cases huv : v.vn ∈ uv
  · rw [if_pos huv]
    rcases hbad with hd | hc
    · cases hcred : lookupCreditor creditors v.creditorId with
      | none => rfl
      | some cred =>
        by_cases hsub : (subscriptionAliases cred).isEmpty = true
        · simp [hsub]
        · simp [hsub, hd]
    · simp [hc]
  · rw [if_neg huv]

theorem foldPass_middle_none (f : Voucher → Option (List String))
    (l1 l2 : List Voucher) (v : Voucher) (hv : f v = none) :
    foldPass f (l1 ++ v :: l2) = foldPass f (l1 ++ l2) := by
  unfold foldPass
  rw [List.foldl_append, List.foldl_append, List.foldl_cons]
  congr 1
  simp only [passStep, hv]

/-- Claim C8: a voucher whose date fails to parse or whose creditor id is
unknown is skipped by Pass B and Pass C — both passes return exactly the
result they return on the input with that voucher removed, and (when no other
record reuses its voucher number) produce no entry for it.  In the embedding
both passes are total functions, so no exception escapes. -/
theorem C8_skip_and_continue (l1 l2 : List Voucher) (v : Voucher) (docs : List Doc)
    (uv ud : List String) (creditors : List Creditor)
    (hbad : v.dateIso = none ∨ lookupCreditor creditors v.creditorId = none) :
    pass_b_alias_date (l1 ++ v :: l2) docs uv ud creditors =
      pass_b_alias_date (l1 ++ l2) docs uv ud creditors ∧
    pass_c_subscription (l1 ++ v :: l2) docs uv ud creditors =
      pass_c_subscription (l1 ++ l2) docs uv ud creditors ∧
    ((∀ r ∈ l1 ++ l2, r.vn ≠ v.vn) →
      dictLookup (pass_b_alias_date (l1 ++ v :: l2) docs uv ud creditors) v.vn = none ∧
      dictLookup (pass_c_subscription (l1 ++ v :: l2) docs uv ud creditors) v.vn = none) := by
  have hb := passBVoucher_bad_none docs uv ud creditors v hbad
  have hc := passCVoucher_bad_none docs uv ud creditors v hbad
  have eb : pass_b_alias_date (l1 ++ v :: l2) docs uv ud creditors =
      pass_b_alias_date (l1 ++ l2) docs uv ud creditors :=
    foldPass_middle_none _ l1 l2 v hb
  have ec : pass_c_subscription (l1 ++ v :: l2) docs uv ud creditors =
      pass_c_subscription (l1 ++ l2) docs uv ud creditors :=
    foldPass_middle_none _ l1 l2 v hc
  refine ⟨eb, ec, fun hne => ⟨?_, ?_⟩⟩
  · rw [eb]
    exact (lookup_foldl_passStep_of_ne _ v.vn (l1 ++ l2) [] hne).trans rfl
  · rw [ec]
    exact (lookup_foldl_passStep_of_ne _ v.vn (l1 ++ l2) [] hne).trans rfl

theorem C8_witness :
    pass_b_alias_date ([] ++ exVbad :: []) [] ["9"] [] [] =
      pass_b_alias_date ([] ++ []) [] ["9"] [] [] ∧
    pass_c_subscription ([] ++ exVbad :: []) [] ["9"] [] [] =
      pass_c_subscription ([] ++ []) [] ["9"] [] [] ∧
    ((∀ r ∈ ([] ++ [] : List Voucher), r.vn ≠ exVbad.vn) →
      dictLookup (pass_b_alias_date ([] ++ exVbad :: []) [] ["9"] [] []) exVbad.vn = none ∧
      dictLookup (pass_c_subscription ([] ++ exVbad :: []) [] ["9"] [] []) exVbad.vn = none) :=
  C8_skip_and_continue [] [] exVbad [] ["9"] [] [] (Or.inl rfl)

/-! ### Pass B reads no amounts (claim C10) -/

theorem passBDocCand_congr (ud : List String) (aliases : List Alias) (vd : Int)
    (d d' : Doc) (hfile : d.file = d'.file) (hdates : d.dates = d'.dates)
    (hvend : d.vendors = d'.vendors) :
    passBDocCand ud aliases vd d = passBDocCand ud aliases vd d' := by
  unfold passBDocCand docLineAliasMatch docDates
  rw [hfile, hdates, hvend]

theorem passB_candList_congr (ud : List String) (docs docs' : List Doc)
    (h : List.Forall₂ (fun d d' => d.file = d'.file ∧ d.dates = d'.dates ∧
      d.vendors = d'.vendors) docs docs') :
    ∀ (aliases : List Alias) (vd : Int),
      (docs.filter (passBDocCand ud aliases vd)).map Doc.file =
        (docs'.filter (passBDocCand ud aliases vd)).map Doc.file := by
  induction h with
  | nil => intro aliases vd; rfl
  | cons hd htl ih =>
    intro aliases vd
    rename_i d d' ds ds'
    obtain ⟨hfile, hdates, hvend⟩ := hd
    have hcc := passBDocCand_congr ud aliases vd d d' hfile hdates hvend
    simp only [List.filter_cons, hcc]
    by_cases hcand : passBDocCand ud aliases vd d' = true
    · rw [if_pos hcand, if_pos hcand]
      simp only [List.map_cons, hfile, ih aliases vd]
    · rw [if_neg hcand, if_neg hcand]
      exact ih aliases vd

theorem passBVoucher_congr (uv ud : List String) (creditors : List Creditor)
    (docs docs' : List Doc)
    (h : List.Forall₂ (fun d d' => d.file = d'.file ∧ d.dates = d'.dates ∧
      d.vendors = d'.vendors) docs docs') (v : Voucher) :
    passBVoucher docs uv ud creditors v = passBVoucher docs' uv ud creditors v := by
  unfold passBVoucher
  by_cases huv : v.vn ∈ uv
  · rw [if_pos huv, if_pos huv]
    cases lookupCreditor creditors v.creditorId with
    | none => rfl
    | some cred =>
      cases v.dateIso with
      | none => rfl
      | some vd => simp only [passB_candList_congr ud docs docs' h cred.aliases vd]
  · rw [if_neg huv, if_neg huv]

theorem foldPass_congr (f g : Voucher → Option (List String)) (hfg : ∀ v, f v = g v) :
    ∀ (records : List Voucher), foldPass f records = foldPass g records := by
  have aux : ∀ (records : List Voucher) (m0 : List (String × List String)),
      records.foldl (passStep f) m0 = records.foldl (passStep g) m0 := by
    intro records
    induction records with
    | nil => intro m0; rfl
    | cons r rest ih =>
      intro m0
      rw [List.foldl_cons, List.foldl_cons]
      have hstep : passStep f m0 r = passStep g m0 r := by
        unfold passStep
        rw [hfg r]
      rw [hstep]
      exact ih _
  intro records
  exact aux records []

/-- Claim C10: Pass B never reads document amounts — replacing every
document's amount list while keeping files, dates and vendor lines produces
exactly the same match map — and in particular a document whose amounts do
not contain the voucher's amount can still be committed by Pass B (second
and third conjuncts: the committed document `a` has an empty amount list). -/
theorem C10_pass_b_independent_of_amounts (records : List Voucher)
    (uv ud : List String) (creditors : List Creditor) (docs docs' : List Doc)
    (h : List.Forall₂ (fun d d' => d.file = d'.file ∧ d.dates = d'.dates ∧
      d.vendors = d'.vendors) docs docs') :
    pass_b_alias_date records docs uv ud creditors =
      pass_b_alias_date records docs' uv ud creditors ∧
    dictLookup (pass_b_alias_date [c10V] [c10D] ["1"] ["a"] [c10Cred]) "1" = some ["a"] ∧
    round2c c10V.amount ∉ c10D.amounts.map round2c := by
  refine ⟨?_, by decide, by decide⟩
  unfold pass_b_alias_date
  exact foldPass_congr _ _ (passBVoucher_congr uv ud creditors docs docs' h) records

theorem C10_witness :
    pass_b_alias_date [] [] [] [] [] = pass_b_alias_date [] [] [] [] [] ∧
    dictLookup (pass_b_alias_date [c10V] [c10D] ["1"] ["a"] [c10Cred]) "1" = some ["a"] ∧
    round2c c10V.amount ∉ c10D.amounts.map round2c :=
  C10_pass_b_independent_of_amounts [] [] [] [] [] [] List.Forall₂.nil

/-! ### Pass B's rule (claim C4) -/

theorem closestTo_eq_none_iff (ref : Int) (l : List Int) :
    closestTo ref l = none ↔ l = [] := by
  cases l <;> simp [closestTo]

theorem docLineAliasMatch_iff (aliases : List Alias) (d : Doc) :
    docLineAliasMatch aliases d = true ↔
      ∃ line ∈ d.vendors, ∃ a ∈ aliases,
        strStarts line a.pre = true ∧ (a.post = "" ∨ strEnds line a.post = true) := by
  unfold docLineAliasMatch aliasLineMatch
  simp [List.any_eq_true, Bool.and_eq_true, Bool.or_eq_true, beq_iff_eq]

theorem aliasDocMatch_iff (aliases : List Alias) (d : Doc) :
    aliasDocMatch aliases d = true ↔
      ∃ a ∈ aliases, ∃ line ∈ d.vendors,
        strStarts line a.pre = true ∧ (a.post = "" ∨ strEnds line a.post = true) := by
  unfold aliasDocMatch aliasLineMatch
  simp [List.any_eq_true, Bool.and_eq_true, Bool.or_eq_true, beq_iff_eq]

theorem passBDocCand_iff (ud : List String) (aliases : List Alias) (vd : Int) (d : Doc) :
    passBDocCand ud aliases vd d = true ↔
      (d.file ∈ ud ∧
       (∃ line ∈ d.vendors, ∃ a ∈ aliases,
         strStarts line a.pre = true ∧ (a.post = "" ∨ strEnds line a.post = true)) ∧
       (docDates d = [] ∨
        ∃ c, closestTo vd (docDates d) = some c ∧ (c - vd).natAbs ≤ 15)) := by
  have hdate : ((match closestTo vd (docDates d) with
      | some c => decide ((c - vd).natAbs ≤ 15)
      | none => true) = true) ↔
      (docDates d = [] ∨ ∃ c, closestTo vd (docDates d) = some c ∧ (c - vd).natAbs ≤ 15) := by
    cases hc2 : closestTo vd (docDates d) with
    | none =>
      have hnil := (closestTo_eq_none_iff vd (docDates d)).mp hc2
      simp [hnil]
    | some c =>
      have hne : docDates d ≠ [] := by
        intro hl
        rw [(closestTo_eq_none_iff vd (docDates d)).mpr hl] at hc2
        cases hc2
      simp only [decide_eq_true_eq]
      constructor
      · intro h15
        exact Or.inr ⟨c, rfl, h15⟩
      · rintro (hnil | ⟨c', hc', h15⟩)
        · exact absurd hnil hne
        · rw [Option.some_inj.mp hc']
          exact h15
  unfold passBDocCand
  simp only [Bool.and_eq_true]
  rw [hdate, docLineAliasMatch_iff, decide_eq_true_eq]
  constructor
  · rintro ⟨⟨h1, h2⟩, h3⟩
    exact ⟨h1, h2, h3⟩
  · rintro ⟨h1, h2, h3⟩
    exact ⟨⟨h1, h2⟩, h3⟩

/-- Claim C4: for a voucher in the unmatched list with a resolvable creditor
and a parsable date, a document is a Pass B candidate iff it is still
unmatched, some vendor line matches some alias of the creditor (prefix match,
and empty postfix or suffix match), and either the document has no parsable
dates (accepted unconditionally) or its closest date is at most 15 days from
the voucher date; the pass commits exactly when the candidate list — one
entry per candidate document — has length one. -/
theorem C4_pass_b_rule (records : List Voucher) (docs : List Doc) (uv ud : List String)
    (creditors : List Creditor) (hnd : (records.map Voucher.vn).Nodup)
    (v : Voucher) (hv : v ∈ records) (hu : v.vn ∈ uv)
    (cred : Creditor) (hc : lookupCreditor creditors v.creditorId = some cred)
    (vd : Int) (hd : v.dateIso = some vd) :
    (∀ d : Doc, passBDocCand ud cred.aliases vd d = true ↔
      (d.file ∈ ud ∧
       (∃ line ∈ d.vendors, ∃ a ∈ cred.aliases,
         strStarts line a.pre = true ∧ (a.post = "" ∨ strEnds line a.post = true)) ∧
       (docDates d = [] ∨
        ∃ c, closestTo vd (docDates d) = some c ∧ (c - vd).natAbs ≤ 15))) ∧
    dictLookup (pass_b_alias_date records docs uv ud creditors) v.vn =
      (if ((docs.filter (passBDocCand ud cred.aliases vd)).map Doc.file).length = 1 then
        some ((docs.filter (passBDocCand ud cred.aliases vd)).map Doc.file)
      else none) := by
  constructor
  · intro d
    exact passBDocCand_iff ud cred.aliases vd d
  · show dictLookup (foldPass (passBVoucher docs uv ud creditors) records) v.vn = _
    rw [lookup_foldPass_eq _ records hnd v hv]
    unfold passBVoucher
    rw [if_pos hu]
    simp only [hc, hd]

theorem C4_witness :
    dictLookup (pass_b_alias_date [c10V] [c10D] ["1"] ["a"] [c10Cred]) c10V.vn =
      (if (([c10D].filter (passBDocCand ["a"] c10Cred.aliases 0)).map Doc.file).length = 1 then
        some (([c10D].filter (passBDocCand ["a"] c10Cred.aliases 0)).map Doc.file)
      else none) :=
  (C4_pass_b_rule [c10V] [c10D] ["1"] ["a"] [c10Cred] (by decide) c10V
    (List.mem_singleton.mpr rfl) (by decide) c10Cred (by decide) 0 rfl).2

/-! ### Pass C's rule (claim C5) -/

theorem mem_passCAliasEntry (vd : Int) (d : Doc) (a : Alias) (f : String) :
    f ∈ passCAliasEntry vd d a ↔
      (f = d.file ∧ ∃ freq sd, a.frequency = some freq ∧ a.startDate = some (some sd) ∧
        ((∃ c, closestTo vd (docDates d) = some c ∧
           ∃ e2 ∈ expectedDates sd vd freq, (c - e2).natAbs ≤ 7) ∨
         docDates d = [])) := by
  unfold passCAliasEntry
  cases hfr : a.frequency with
  | none => simp
  | some freq0 =>
    cases hsd : a.startDate with
    | none => simp
    | some so =>
      cases so with
      | none => simp
      | some sd0 =>
        cases hcl : closestTo vd (docDates d) with
        | none =>
          have hnil := (closestTo_eq_none_iff vd (docDates d)).mp hcl
          simp only [List.mem_singleton]
          constructor
          · intro hf
            exact ⟨hf, freq0, sd0, rfl, rfl, Or.inr hnil⟩
          · rintro ⟨hf, _⟩
            exact hf
        | some c0 =>
          have hne : docDates d ≠ [] := by
            intro hl
            rw [(closestTo_eq_none_iff vd (docDates d)).mpr hl] at hcl
            cases hcl
          show (f ∈ (if ((expectedDates sd0 vd freq0).any
              fun e => decide ((c0 - e).natAbs ≤ 7)) = true
              then [d.file] else [])) ↔ _
          by_cases hany : ((expectedDates sd0 vd freq0).any
              fun e2 => decide ((c0 - e2).natAbs ≤ 7)) = true
          · rw [if_pos hany]
            simp only [List.mem_singleton]
            constructor
            · intro hf
              obtain ⟨e2, he2, hle⟩ := List.any_eq_true.mp hany
              exact ⟨hf, freq0, sd0, rfl, rfl,
                Or.inl ⟨c0, rfl, e2, he2, of_decide_eq_true hle⟩⟩
            · rintro ⟨hf, _⟩
              exact hf
          · rw [if_neg hany]
            simp only [List.not_mem_nil, false_iff]
            rintro ⟨hf, freq, sd, hfreq, hsd2, hcond⟩
            obtain rfl : freq0 = freq := Option.some_inj.mp hfreq
            obtain rfl : sd0 = sd := Option.some_inj.mp (Option.some_inj.mp hsd2)
            rcases hcond with ⟨c, hcc, e2, he2, hle⟩ | hnil2
            · obtain rfl : c0 = c := Option.some_inj.mp hcc
              exact hany (List.any_eq_true.mpr ⟨e2, he2, decide_eq_true hle⟩)
            · exact hne hnil2

theorem mem_passCCands (docs : List Doc) (ud : List String) (subs : List Alias)
    (vd : Int) (key : ℤ) (f : String) :
    f ∈ passCCands docs ud subs vd key ↔
      ∃ d ∈ docs, (d.file ∈ ud ∧ key ∈ d.amounts.map round2c ∧
        aliasDocMatch subs d = true) ∧ f ∈ passCAliasCands vd d subs := by
  unfold passCCands
  simp only [List.mem_flatMap]
  constructor
  · rintro ⟨d, hd, hfd⟩
    by_cases hg : (decide (d.file ∈ ud) && decide (key ∈ d.amounts.map round2c)
        && aliasDocMatch subs d) = true
    · rw [if_pos hg] at hfd
      rw [Bool.and_eq_true, Bool.and_eq_true] at hg
      exact ⟨d, hd, ⟨of_decide_eq_true hg.1.1, of_decide_eq_true hg.1.2, hg.2⟩, hfd⟩
    · rw [if_neg hg] at hfd
      simp at hfd
  · rintro ⟨d, hd, ⟨h1, h2, h3⟩, hfd⟩
    refine ⟨d, hd, ?_⟩
    rw [if_pos (by
      rw [Bool.and_eq_true, Bool.and_eq_true]
      exact ⟨⟨decide_eq_true h1, decide_eq_true h2⟩, h3⟩)]
    exact hfd

/-- Claim C5 (amended): for a Pass C voucher (unmatched, creditor resolvable,
at least one alias with both truthy `frequency` and `start_date` fields,
parsable date), a still-unmatched document is a candidate iff its rounded
amounts contain the voucher's rounded amount, some vendor line matches a
subscription alias, and there is SOME subscription alias with a parsable
start date for which either (a) the document's closest date lies within ±7
days of some occurrence of that alias's generated schedule, or (b) the
document has NO parsable dates — in case (b) the document is accepted for
every frequency, not only `bimonthly` (the bimonthly-only mod-60 fallback of
the claim exists in `src/grokmatcher2.py` but not in `src/newmatcher.py`);
the match commits exactly when the de-duplicated candidate set has exactly
one member (the sorted dedup list, whose length equals the number of
distinct candidates). -/
theorem C5_pass_c_rule (records : List Voucher) (docs : List Doc) (uv ud : List String)
    (creditors : List Creditor) (hnd : (records.map Voucher.vn).Nodup)
    (v : Voucher) (hv : v ∈ records) (hu : v.vn ∈ uv)
    (cred : Creditor) (hc : lookupCreditor creditors v.creditorId = some cred)
    (hsub : (subscriptionAliases cred).isEmpty = false)
    (vd : Int) (hd : v.dateIso = some vd) :
    (∀ f : String,
      f ∈ passCCands docs ud (subscriptionAliases cred) vd (round2c v.amount) ↔
      ∃ d ∈ docs, d.file = f ∧ d.file ∈ ud ∧
        round2c v.amount ∈ d.amounts.map round2c ∧
        (∃ a ∈ subscriptionAliases cred, ∃ line ∈ d.vendors,
          strStarts line a.pre = true ∧ (a.post = "" ∨ strEnds line a.post = true)) ∧
        (∃ a ∈ subscriptionAliases cred, ∃ freq sd,
          a.frequency = some freq ∧ a.startDate = some (some sd) ∧
          ((∃ c, closestTo vd (docDates d) = some c ∧
             ∃ e2 ∈ expectedDates sd vd freq, (c - e2).natAbs ≤ 7) ∨
           docDates d = []))) ∧
    dictLookup (pass_c_subscription records docs uv ud creditors) v.vn =
      (if (sortStrs (passCCands docs ud (subscriptionAliases cred) vd
            (round2c v.amount)).eraseDups).length = 1 then
        some (sortStrs (passCCands docs ud (subscriptionAliases cred) vd
          (round2c v.amount)).eraseDups)
      else none) ∧
    (sortStrs (passCCands docs ud (subscriptionAliases cred) vd
        (round2c v.amount)).eraseDups).length =
      (passCCands docs ud (subscriptionAliases cred) vd
        (round2c v.amount)).eraseDups.length := by
  refine ⟨?_, ?_, (List.perm_insertionSort _ _).length_eq⟩
  · intro f
    rw [mem_passCCands]
    constructor
    · rintro ⟨d, hd2, ⟨h1, h2, h3⟩, hfd⟩
      obtain ⟨a, ha, hfa⟩ := List.mem_flatMap.mp hfd
      obtain ⟨hfile, freq, sd, hfreq, hsd2, hcond⟩ := (mem_passCAliasEntry vd d a f).mp hfa
      exact ⟨d, hd2, hfile.symm, h1, h2, (aliasDocMatch_iff _ _).mp h3,
        a, ha, freq, sd, hfreq, hsd2, hcond⟩
    · rintro ⟨d, hd2, hfile, h1, h2, halias, a, ha, freq, sd, hfreq, hsd2, hcond⟩
      refine ⟨d, hd2, ⟨h1, h2, (aliasDocMatch_iff _ _).mpr halias⟩, ?_⟩
      exact List.mem_flatMap.mpr ⟨a, ha,
        (mem_passCAliasEntry vd d a f).mpr ⟨hfile.symm, freq, sd, hfreq, hsd2, hcond⟩⟩
  · show dictLookup (foldPass (passCVoucher docs uv ud creditors) records) v.vn = _
    rw [lookup_foldPass_eq _ records hnd v hv]
    unfold passCVoucher
    rw [if_pos hu]
    simp only [hc, hsub, Bool.false_eq_true, if_false, hd]

/-- Claim C5, counterexample to the claim as stated: the subscription alias
is `monthly` and document `a` has no dates, so clause (b) of the claim does
not apply and the claim says `a` is not a candidate and no match is
committed; yet `src/newmatcher.py`'s `pass_c_subscription` accepts any
undated document once amount and alias match, and commits voucher 1 → `a`. -/
theorem C5_counterexample_undated_monthly_committed :
    dictLookup (pass_c_subscription [c5V] [c5D] ["1"] ["a"] [c5Cred]) "1" = some ["a"] ∧
    c5D.dates = [] ∧ c5Alias.frequency = some "monthly" := by
  decide

theorem C5_witness :
    dictLookup (pass_c_subscription [c5V] [c5D] ["1"] ["a"] [c5Cred]) c5V.vn =
      (if (sortStrs (passCCands [c5D] ["a"] (subscriptionAliases c5Cred) 0
            (round2c c5V.amount)).eraseDups).length = 1 then
        some (sortStrs (passCCands [c5D] ["a"] (subscriptionAliases c5Cred) 0
          (round2c c5V.amount)).eraseDups)
      else none) :=
  (C5_pass_c_rule [c5V] [c5D] ["1"] ["a"] [c5Cred] (by decide) c5V
    (List.mem_singleton.mpr rfl) (by decide) c5Cred (by decide) (by decide) 0 rfl).2.1

/-! ### The candidate scorer (claim C6) -/

theorem lexLeB_head_le (a b : Char) (as bs : List Char)
    (h : lexLeB (a :: as) (b :: bs) = true) : a.toNat ≤ b.toNat := by
  simp only [lexLeB] at h
  by_cases h1 : a.toNat < b.toNat
  · omega
  · rw [if_neg h1] at h
    by_cases h2 : b.toNat < a.toNat
    · rw [if_pos h2] at h; cases h
    · omega

theorem lexLeB_total : ∀ s t : List Char, lexLeB s t = true ∨ lexLeB t s = true := by
  intro s
  induction s with
  | nil => intro t; left; rfl
  | cons a as ih =>
    intro t
    cases t with
    | nil => right; rfl
    | cons b bs =>
      simp only [lexLeB]
      by_cases hab : a.toNat < b.toNat
      · left; rw [if_pos hab]
      · by_cases hba : b.toNat < a.toNat
        · right; rw [if_pos hba]
        · rcases ih bs with h | h
          · left; rw [if_neg hab, if_neg hba]; exact h
          · right; rw [if_neg hba, if_neg hab]; exact h

theorem lexLeB_trans : ∀ s t u : List Char,
    lexLeB s t = true → lexLeB t u = true → lexLeB s u = true := by
  intro s
  induction s with
  | nil => intro t u _ _; rfl
  | cons a as ih =>
    intro t u hst htu
    cases t with
    | nil => simp [lexLeB] at hst
    | cons b bs =>
      cases u with
      | nil => simp [lexLeB] at htu
      | cons c cs =>
        have hab := lexLeB_head_le a b as bs hst
        have hbc := lexLeB_head_le b c bs cs htu
        simp only [lexLeB] at hst htu ⊢
        by_cases hac : a.toNat < c.toNat
        · rw [if_pos hac]
        · rw [if_neg hac, if_neg (by omega : ¬ c.toNat < a.toNat)]
          rw [if_neg (by omega : ¬ a.toNat < b.toNat),
            if_neg (by omega : ¬ b.toNat < a.toNat)] at hst
          rw [if_neg (by omega : ¬ b.toNat < c.toNat),
            if_neg (by omega : ¬ c.toNat < b.toNat)] at htu
          exact ih bs cs hst htu

theorem rowLe_total : ∀ r1 r2 : Row, rowLe r1 r2 = true ∨ rowLe r2 r1 = true := by
  intro r1 r2
  simp only [rowLe, strLeB, Bool.or_eq_true, Bool.and_eq_true, decide_eq_true_eq,
    beq_iff_eq]
  rcases Nat.lt_trichotomy r1.score r2.score with h | h | h
  · right; left; exact h
  · rcases lexLeB_total r1.file.data r2.file.data with hf | hf
    · left; right; exact ⟨h, hf⟩
    · right; right; exact ⟨h.symm, hf⟩
  · left; left; exact h

theorem rowLe_trans : ∀ r1 r2 r3 : Row,
    rowLe r1 r2 = true → rowLe r2 r3 = true → rowLe r1 r3 = true := by
  intro r1 r2 r3 h12 h23
  simp only [rowLe, strLeB, Bool.or_eq_true, Bool.and_eq_true, decide_eq_true_eq,
    beq_iff_eq] at h12 h23 ⊢
  rcases h12 with ha | ⟨he1, hf1⟩ <;> rcases h23 with hb | ⟨he2, hf2⟩
  · left; omega
  · left; omega
  · left; omega
  · right; exact ⟨he1.trans he2, lexLeB_trans _ _ _ hf1 hf2⟩

/-- Claim C6: on a voucher with parsable date the scorer returns rows and
leaves the MatchSet untouched; the rows are a permutation of the score-
annotated documents that pass the two display filters, each row carries
`scoreDoc` of its document, the score is at most 100 (50 + 30 + 20), and the
rows are pairwise ordered by `rowLe`, which holds exactly for descending
score with ties broken by filename ascending (code-point order). -/
theorem C6_candidate_scorer (matchinfo : List (String × List String))
    (creditors : List Creditor) (docs : List Doc) (v : Voucher)
    (showAllDocs hideMatched : Bool) (vd : Int) (hd : v.dateIso = some vd) :
    ∃ rows : List Row,
      refresh_table matchinfo creditors docs v showAllDocs hideMatched =
        some (rows, matchinfo) ∧
      rows.Perm (docs.filterMap fun d =>
        if hideMatched && decide (d.file ∈ matchinfo.flatMap (·.2)) then none
        else if !showAllDocs && scoreDoc creditors v vd d == 0 then none
        else some { file := d.file, score := scoreDoc creditors v vd d }) ∧
      List.Pairwise (fun r1 r2 => rowLe r1 r2 = true) rows ∧
      (∀ r1 r2 : Row, rowLe r1 r2 = true ↔
        (r2.score < r1.score ∨
          (r1.score = r2.score ∧ lexLeB r1.file.data r2.file.data = true))) ∧
      (∀ r ∈ rows, ∃ d ∈ docs, r.file = d.file ∧ r.score = scoreDoc creditors v vd d) ∧
      (∀ d : Doc, scoreDoc creditors v vd d ≤ 100) := by
  refine ⟨List.insertionSort (fun r1 r2 => rowLe r1 r2 = true)
      (docs.filterMap fun d =>
        if hideMatched && decide (d.file ∈ matchinfo.flatMap (·.2)) then none
        else if !showAllDocs && scoreDoc creditors v vd d == 0 then none
        else some { file := d.file, score := scoreDoc creditors v vd d }),
    ?_, ?_, ?_, ?_, ?_, ?_⟩
  · unfold refresh_table
    rw [hd]
  · exact List.perm_insertionSort _ _
  · haveI : IsTotal Row (fun r1 r2 => rowLe r1 r2 = true) := ⟨rowLe_total⟩
    haveI : IsTrans Row (fun r1 r2 => rowLe r1 r2 = true) := ⟨rowLe_trans⟩
    exact List.sorted_insertionSort _ _
  · intro r1 r2
    simp only [rowLe, strLeB, Bool.or_eq_true, Bool.and_eq_true, decide_eq_true_eq,
      beq_iff_eq]
  · intro r hr
    have hr' := (List.perm_insertionSort
      (fun r1 r2 => rowLe r1 r2 = true) _).mem_iff.mp hr
    obtain ⟨d, hd2, hg⟩ := List.mem_filterMap.mp hr'
    by_cases h1 : (hideMatched && decide (d.file ∈ matchinfo.flatMap (·.2))) = true
    · rw [if_pos h1] at hg; cases hg
    · rw [if_neg h1] at hg
      by_cases h2 : (!showAllDocs && scoreDoc creditors v vd d == 0) = true
      · rw [if_pos h2] at hg; cases hg
      · rw [if_neg h2] at hg
        have hr2 := Option.some_inj.mp hg
        subst hr2
        exact ⟨d, hd2, rfl, rfl⟩
  · intro d
    unfold scoreDoc
    have h1 : (if round2c v.amount ∈ d.amounts.map round2c then 50 else 0) ≤ 50 := by
      split <;> omega
    have h2 : (match lookupCreditor creditors v.creditorId with
        | some cred => if aliasDocMatch cred.aliases d then 30 else 0
        | none => 0) ≤ 30 := by
      cases lookupCreditor creditors v.creditorId with
      | none => exact Nat.zero_le _
      | some cred =>
        show (if aliasDocMatch cred.aliases d = true then 30 else 0) ≤ 30
        split <;> omega
    have h3 : (match closestTo vd (docDates d) with
        | some c =>
          if (c - vd).natAbs ≤ 7 then 20
          else if (c - vd).natAbs ≤ 15 then 10
          else if (c - vd).natAbs ≤ 30 then 5
          else 0
        | none => 0) ≤ 20 := by
      cases closestTo vd (docDates d) with
      | none => exact Nat.zero_le _
      | some c =>
        show (if (c - vd).natAbs ≤ 7 then 20
          else if (c - vd).natAbs ≤ 15 then 10
          else if (c - vd).natAbs ≤ 30 then 5
          else 0) ≤ 20
        split_ifs <;> omega
    calc _ ≤ 50 + 30 + 20 := by
            exact Nat.add_le_add (Nat.add_le_add h1 h2) h3
      _ = 100 := rfl

theorem C6_witness :
    ∃ rows : List Row,
      refresh_table [] [] [] exV1 false true = some (rows, []) ∧
      rows.Perm (([] : List Doc).filterMap fun d =>
        if true && decide (d.file ∈ ([] : List (String × List String)).flatMap (·.2))
        then none
        else if !false && scoreDoc [] exV1 0 d == 0 then none
        else some { file := d.file, score := scoreDoc [] exV1 0 d }) ∧
      List.Pairwise (fun r1 r2 => rowLe r1 r2 = true) rows ∧
      (∀ r1 r2 : Row, rowLe r1 r2 = true ↔
        (r2.score < r1.score ∨
          (r1.score = r2.score ∧ lexLeB r1.file.data r2.file.data = true))) ∧
      (∀ r ∈ rows, ∃ d ∈ ([] : List Doc), r.file = d.file ∧
        r.score = scoreDoc [] exV1 0 d) ∧
      (∀ d : Doc, scoreDoc [] exV1 0 d ≤ 100) :=
  C6_candidate_scorer [] [] [] exV1 false true 0 rfl

end Bilag
